import Mathlib

/-!
Verification of the transactional storage core of `simpledb` (Rust).

Each Rust function used by a claim is embedded as an executable Lean
definition; bytes are `Nat` (0..255), machine integers are `Int`/`Nat`,
fallible operations return `Option` (with `none` for an error or panic).
Lists stand for `Vec`/`HashMap` contents; a single-threaded semantics is
used for operations whose only blocking is a condition-variable wait with a
10-second timeout (with no other thread to change the state, such a wait
always times out, which the model renders as `none`).
-/

namespace SimpleDB

/-- `BlockId` from `src/file/block_id.rs`: an immutable pair of a filename
and a zero-based block number, with structural equality. -/
structure BlockId where
  filename : String
  block_number : Nat
deriving DecidableEq

/-! ## Page (`src/file/page.rs`)

A `Page` wraps a `bytebuffer::ByteBuffer`; we model the buffer as a list of
bytes.  `ByteBuffer` writes are positioned: writing at `wpos` overwrites
the bytes at that position and grows the buffer whenever the data runs past
its current end. -/

/-- `std::mem::size_of::<i32>()`. -/
def size_of_i32 : Nat := 4

/-- `std::mem::size_of::<char>()` (a Rust `char` is four bytes). -/
def size_of_char : Nat := 4

/-- `Page::max_length` from `src/file/page.rs`:
`size_of::<i32>() + strlen * size_of::<char>()`. -/
def max_length (strlen : Nat) : Nat := size_of_i32 + strlen * size_of_char

/-- Big-endian `u32` encoding used by `ByteBuffer::write_u32` for the
length word written ahead of strings and byte arrays. -/
def u32be (n : Nat) : List Nat :=
  [n / 2 ^ 24 % 256, n / 2 ^ 16 % 256, n / 2 ^ 8 % 256, n % 256]

/-- A positioned `ByteBuffer` write: overwrite from `pos` on, growing the
buffer when `pos + data.length` exceeds its current length. -/
def bb_write (buf : List Nat) (pos : Nat) (data : List Nat) : List Nat :=
  buf.take pos ++ data ++ buf.drop (pos + data.length)

/-- `Page::set_string` from `src/file/page.rs`: the guard rejects the write
when `offset + s.len() > self.buf.len()`, else `write_string` emits a
4-byte length word followed by the bytes of the string.  The string's
bytes are the argument (UTF-8 payload). -/
def set_string (page : List Nat) (offset : Nat) (s : List Nat) :
    Option (List Nat) :=
  if offset + s.length > page.length then none
  else some (bb_write page offset (u32be s.length ++ s))

/-- `Page::set_bytes` from `src/file/page.rs`: the guard rejects the write
when `offset + size_of::<i32>() + bytes.len() > self.buf.len()`, else emits
the 4-byte length word followed by the bytes. -/
def set_bytes (page : List Nat) (offset : Nat) (bytes : List Nat) :
    Option (List Nat) :=
  if offset + size_of_i32 + bytes.length > page.length then none
  else some (bb_write page offset (u32be bytes.length ++ bytes))

/-! ## FileManager (`src/file/manager.rs`) -/

/-- `FileManager::read` from `src/file/manager.rs`, acting on the byte
content of the named file and the page's byte buffer: seek to
`block_number * block_size`; only when the file's length is at least that
position plus the page length is one block read into the page (replacing
its contents); otherwise the body of the `if` is skipped and the page
keeps its previous contents.  The call succeeds either way. -/
def fm_read (block_size : Nat) (file : List Nat) (block_number : Nat)
    (page : List Nat) : List Nat :=
  if block_number * block_size + page.length ≤ file.length then
    (file.drop (block_number * block_size)).take page.length
  else
    page

/-- Modelled from the spec sentence for claim C6 (the code under test is
`fm_read` above): "read exactly one block into the page (pad with zeros if
the file is shorter — do not fail)", i.e. the available file bytes from the
seek position followed by zeros up to the page length. -/
def fm_read_claimed (block_size : Nat) (file : List Nat) (block_number : Nat)
    (page : List Nat) : List Nat :=
  (file.drop (block_number * block_size)).take page.length ++
    List.replicate
      (page.length - (file.length - block_number * block_size)) 0

/-! ## LockTable (`src/tx/concurrency/lock_table.rs`) -/

/-- The lock state stored per block in `src/tx/concurrency/lock_table.rs`. -/
inductive Lock where
  | exclusive
  | shared (count : Nat)
deriving DecidableEq

/-- The `HashMap<BlockId, Lock>` of the lock table, as an association list
(each key occurs at most once). -/
def lookup_lock : List (BlockId × Lock) → BlockId → Option Lock
  | [], _ => none
  | (k, v) :: rest, b => if k = b then some v else lookup_lock rest b

/-- `HashMap::insert`: replace the value at the key, or add the entry. -/
def insert_lock : List (BlockId × Lock) → BlockId → Lock → List (BlockId × Lock)
  | [], b, l => [(b, l)]
  | (k, v) :: rest, b, l =>
    if k = b then (b, l) :: rest else (k, v) :: insert_lock rest b l

/-- `LockTable::xlock` from `src/tx/concurrency/lock_table.rs`.  The Rust
match has exactly two arms: `Some(Lock::Shared(count)) if *count > 1`
waits on the condition variable (single-threaded semantics: no other
thread can change the state, so the 10-second wait times out and the call
fails with "lock abort" — modelled as `none`); the wildcard arm — entry
absent, `Shared(count ≤ 1)`, or `Exclusive` — immediately inserts
`Lock::Exclusive` for the block and succeeds. -/
def xlock (st : List (BlockId × Lock)) (b : BlockId) :
    Option (List (BlockId × Lock)) :=
  match lookup_lock st b with
  | some (Lock.shared c) =>
    if c > 1 then none else some (insert_lock st b Lock.exclusive)
  | _ => some (insert_lock st b Lock.exclusive)

lemma lookup_insert_lock (st : List (BlockId × Lock)) (b : BlockId) (l : Lock) :
    lookup_lock (insert_lock st b l) b = some l := by
  induction st with
  | nil => simp [insert_lock, lookup_lock]
  | cons kv rest ih =>
    by_cases h : kv.1 = b
    · simp [insert_lock, h, lookup_lock]
    · simp [insert_lock, h, lookup_lock, ih]

/-! ## Claims C5, C6, C7, C8 -/

/-- A concrete block used by counterexamples and witnesses. -/
def blk_a : BlockId := ⟨"testfile", 1⟩

/-- Claim C5, counterexample: the claim says `xlock` succeeds only when
the table's entry for the block is absent or `Shared` with count ≤ 1; but
on a table whose entry for the block is `Exclusive` (held by another
transaction), `xlock` succeeds immediately via the wildcard match arm. -/
theorem c5_xlock_on_exclusive_counterexample :
    lookup_lock [(blk_a, Lock.exclusive)] blk_a = some Lock.exclusive ∧
    (xlock [(blk_a, Lock.exclusive)] blk_a).isSome = true := by
  constructor
  · rfl
  · rfl

/-- Claim C5 as amended: `xlock` succeeds exactly when the entry is not
`Shared` with count > 1 — that is, when it is absent, `Shared` with
count ≤ 1 (the caller's own slock), or `Exclusive`; while the shared count
is > 1 it waits (and, single-threaded, fails with "lock abort" on
timeout); on success it overwrites the entry to `Exclusive`. -/
theorem c5_xlock_characterization (st : List (BlockId × Lock)) (b : BlockId) :
    ((xlock st b).isSome ↔
      ∀ c, lookup_lock st b = some (Lock.shared c) → c ≤ 1) ∧
    (∀ st', xlock st b = some st' →
      lookup_lock st' b = some Lock.exclusive) := by
  constructor
  · unfold xlock
    match h : lookup_lock st b with
    | none => simp [h]
    | some Lock.exclusive => simp [h]
    | some (Lock.shared c) =>
      by_cases hc : c > 1
      · simp [h, hc]
      · simp [h, hc]
        omega
  · intro st' hst'
    unfold xlock at hst'
    match h : lookup_lock st b with
    | none =>
      rw [h] at hst'
      simp at hst'
      rw [← hst']
      exact lookup_insert_lock st b Lock.exclusive
    | some Lock.exclusive =>
      rw [h] at hst'
      simp at hst'
      rw [← hst']
      exact lookup_insert_lock st b Lock.exclusive
    | some (Lock.shared c) =>
      rw [h] at hst'
      by_cases hc : c > 1
      · simp [hc] at hst'
      · simp [hc] at hst'
        rw [← hst']
        exact lookup_insert_lock st b Lock.exclusive

/-- Witness for `c5_xlock_characterization` at a concrete table: a state
with one shared holder; `xlock` succeeds and the entry becomes exclusive. -/
theorem c5_xlock_characterization_witness :
    lookup_lock (insert_lock [(blk_a, Lock.shared 1)] blk_a Lock.exclusive)
      blk_a = some Lock.exclusive :=
  (c5_xlock_characterization [(blk_a, Lock.shared 1)] blk_a).2
    (insert_lock [(blk_a, Lock.shared 1)] blk_a Lock.exclusive) rfl

/-- Claim C6, counterexample: with block size 4, a file of only two bytes
`[1, 2]`, and a page previously holding `[9, 9, 9, 9]`, the claim says the
read fills the page with the available file bytes followed by zeros
(`[1, 2, 0, 0]`); the code's guard `len >= pos + page_len` fails, so the
body is skipped and the page keeps its stale contents `[9, 9, 9, 9]`. -/
theorem c6_short_file_counterexample :
    fm_read 4 [1, 2] 0 [9, 9, 9, 9] = [9, 9, 9, 9] ∧
    fm_read_claimed 4 [1, 2] 0 [9, 9, 9, 9] = [1, 2, 0, 0] ∧
    fm_read 4 [1, 2] 0 [9, 9, 9, 9] ≠
      fm_read_claimed 4 [1, 2] 0 [9, 9, 9, 9] := by
  refine ⟨rfl, rfl, ?_⟩
  decide

/-- Claim C6 as amended: `read` fills the page with exactly one block of
data from position `block_number * block_size` of the file only when the
file already contains that whole block (`pos + page_len ≤ file_len`); in
that case the call does not fail and each page byte `i` equals file byte
`pos + i`.  When the file is shorter than the position plus one block, the
call still does not fail but the page is left with its previous contents
unchanged (no zero padding, no partial copy). -/
theorem c6_fm_read_characterization (block_size : Nat) (file : List Nat)
    (block_number : Nat) (page : List Nat) :
    (block_number * block_size + page.length ≤ file.length →
      (fm_read block_size file block_number page).length = page.length ∧
      ∀ i, i < page.length →
        (fm_read block_size file block_number page)[i]? =
          file[block_number * block_size + i]?) ∧
    (file.length < block_number * block_size + page.length →
      fm_read block_size file block_number page = page) := by
  constructor
  · intro h
    constructor
    · simp [fm_read, h]
      omega
    · intro i hi
      simp [fm_read, h, List.getElem?_take, hi, List.getElem?_drop]
  · intro h
    have h' : ¬ (block_number * block_size + page.length ≤ file.length) := by
      omega
    simp [fm_read, h']

/-- Witness for `c6_fm_read_characterization`: reading block 1 of an
8-byte file with block size 4 yields the file's bytes 4..7. -/
theorem c6_fm_read_characterization_witness :
    (fm_read 4 [1, 2, 3, 4, 5, 6, 7, 8] 1 [9, 9, 9, 9]).length = 4 ∧
    (fm_read 4 [1, 2, 3, 4, 5, 6, 7, 8] 1 [9, 9, 9, 9])[0]? =
      [1, 2, 3, 4, 5, 6, 7, 8][4]? := by
  have h := (c6_fm_read_characterization 4 [1, 2, 3, 4, 5, 6, 7, 8] 1
    [9, 9, 9, 9]).1 (by decide)
  exact ⟨h.1, h.2 0 (by decide)⟩

/-- Claim C7: the claim says `set_string(o, s)` fails with a
buffer-overflow error exactly when `o + 4 + len(s) > B` and otherwise
writes only within the page's `B` bytes.  The code's guard omits the
4-byte length word (`offset + s.len() > self.buf.len()`), so on a 4-byte
page, `set_string(1, "ab")` — whose encoding needs bytes 1..6 — succeeds
and grows the underlying buffer to 7 bytes, writing past the block, while
the sibling `set_bytes(1, [97, 98])`, which encodes the same layout,
correctly rejects the same write. -/
theorem c7_set_string_missing_length_word :
    1 + 4 + 2 > 4 ∧
    set_string [0, 0, 0, 0] 1 [97, 98] =
      some [0, 0, 0, 0, 2, 97, 98] ∧
    (set_string [0, 0, 0, 0] 1 [97, 98]).map List.length = some 7 ∧
    set_bytes [0, 0, 0, 0] 1 [97, 98] = none := by
  refine ⟨by decide, rfl, rfl, rfl⟩

/-- Claim C8, counterexample: `max_length(1)` returns 8, not `4 + 1`. -/
theorem c8_max_length_counterexample : max_length 1 ≠ 4 + 1 := by
  decide

/-- Claim C8 as amended: `max_length(n)` returns `4 + 4 * n` — a four-byte
length word plus `size_of::<char>()` = 4 bytes per character — an
overestimate (for n > 0) of the `4 + n` bytes the page's string encoder
actually emits for an n-byte ASCII string. -/
theorem c8_max_length_eq (n : Nat) : max_length n = 4 + 4 * n := by
  simp [max_length, size_of_i32, size_of_char]
  omega

/-! ## Log records (`src/tx/recovery/log_record.rs`)

The log manager's iterator yields records in reverse-chronological order;
the recovery procedures below therefore take the decoded log as a list
whose head is the most recently written record. -/

/-- The operation tags of `LogOperation`. -/
inductive LogOp where
  | checkpoint
  | start
  | commit
  | rollback
  | set_int
  | set_string
deriving DecidableEq

/-- A decoded log record: the fields each record struct stores. -/
inductive LogRec where
  | checkpoint
  | start (txnum : Int)
  | commit (txnum : Int)
  | rollback (txnum : Int)
  | set_int (txnum : Int) (block : BlockId) (offset : Nat) (val : Int)
  | set_string (txnum : Int) (block : BlockId) (offset : Nat) (val : String)
deriving DecidableEq

/-- `LogRecord::op` of each record type. -/
def LogRec.op : LogRec → LogOp
  | .checkpoint => LogOp.checkpoint
  | .start _ => LogOp.start
  | .commit _ => LogOp.commit
  | .rollback _ => LogOp.rollback
  | .set_int _ _ _ _ => LogOp.set_int
  | .set_string _ _ _ _ => LogOp.set_string

/-- `LogRecord::tx_number` as implemented in
`src/tx/recovery/log_record.rs`: the CheckpointRecord, StartRecord,
CommitRecord and RollbackRecord impls all return `-1` — the
Start/Commit/Rollback impls ignore the `txnum` field their structs store —
and only SetIntRecord and SetStringRecord return the stored number. -/
def LogRec.tx_number : LogRec → Int
  | .checkpoint => -1
  | .start _ => -1
  | .commit _ => -1
  | .rollback _ => -1
  | .set_int t _ _ _ => t
  | .set_string t _ _ _ => t

/-- A stored value at some (block, offset): an integer or a string. -/
inductive Value where
  | int (n : Int)
  | str (s : String)
deriving DecidableEq

/-- The observable content of the database: the value at each
(block, offset) pair. -/
def Store := BlockId → Nat → Value

/-- `LogRecord::undo`: a SetInt/SetString record pins its block and writes
the saved pre-image back (with logging disabled); every other record type
is a no-op. -/
def LogRec.undo : LogRec → Store → Store
  | .set_int _ b o v, st =>
    fun b' o' => if b' = b ∧ o' = o then Value.int v else st b' o'
  | .set_string _ b o v, st =>
    fun b' o' => if b' = b ∧ o' = o then Value.str v else st b' o'
  | _, st => st

/-- Apply `undo` for each record of the list in order. -/
def apply_undos (l : List LogRec) (st : Store) : Store :=
  l.foldl (fun s r => r.undo s) st

/-- `RecoveryManager::do_recover` (`src/tx/recovery/manager.rs`): walk the
log in the order the iterator yields it, returning on a Checkpoint
record; push `rec.tx_number()` of every Commit or Rollback record onto
`finished_txs`; for every other record whose `tx_number()` is not in
`finished_txs`, call `undo` on it.  The result is the list of records on
which `undo` is called, in call order. -/
def do_recover_undone (finished : List Int) : List LogRec → List LogRec
  | [] => []
  | r :: rest =>
    match r.op with
    | LogOp.checkpoint => []
    | LogOp.commit => do_recover_undone (finished ++ [r.tx_number]) rest
    | LogOp.rollback => do_recover_undone (finished ++ [r.tx_number]) rest
    | _ =>
      if r.tx_number ∈ finished then do_recover_undone finished rest
      else r :: do_recover_undone finished rest

/-- `RecoveryManager::do_rollback` (`src/tx/recovery/manager.rs`): walk
the log in the order the iterator yields it; for each record whose
`tx_number()` equals this transaction's number, return (stop) if it is a
Start record, else call `undo` on it.  The result is the list of records
on which `undo` is called, in call order. -/
def do_rollback_undone (txnum : Int) : List LogRec → List LogRec
  | [] => []
  | r :: rest =>
    if r.tx_number = txnum then
      (if r.op = LogOp.start then []
       else r :: do_rollback_undone txnum rest)
    else do_rollback_undone txnum rest

/-! ## Claims C1 and C2 -/

/-- The log, in the reverse-chronological order the iterator yields it,
left behind when transaction 0 started, wrote value 9 over pre-image 7 at
offset 0 of `blk_a` (logging the pre-image 7), committed — and then the
process crashed. -/
def committed_crash_log : List LogRec :=
  [LogRec.commit 0, LogRec.set_int 0 blk_a 0 7, LogRec.start 0]

/-- The durable store after that commit: the committed value 9 at
offset 0 of `blk_a`. -/
def committed_store : Store :=
  fun b o => if b = blk_a ∧ o = 0 then Value.int 9 else Value.int 0

/-- Claim C1: because `CommitRecord::tx_number()` returns `-1` instead of
the stored transaction number, `do_recover` records `-1` in the finished
set when it sees the Commit record, so the committed transaction's SetInt
record (whose `tx_number()` is 0) is not recognized as finished and gets
undone: after a crash and `recover()`, the committed value 9 has been
overwritten with the pre-image 7, contradicting the claim (and the
method's own documentation, "Whenever it finds a log record for an
unfinished transaction, it calls undo() on that record"). -/
theorem c1_recover_undoes_committed_update :
    (LogRec.commit 0).tx_number = -1 ∧
    do_recover_undone [] committed_crash_log =
      [LogRec.set_int 0 blk_a 0 7] ∧
    apply_undos (do_recover_undone [] committed_crash_log)
      committed_store blk_a 0 = Value.int 7 := by
  refine ⟨rfl, by decide, by decide⟩

/-- The log, in reverse order, seen when rolling back transaction 1: the
newest record is tx 1's logged update (pre-image 9), then tx 1's Start
record, then an older update record bearing the same transaction
number 1 (the transaction counter `NEXT_TX_NUM` restarts at 0 on every
process start, so a log that survives a restart contains records of
earlier incarnations of the same numbers). -/
def rollback_scan_log : List LogRec :=
  [LogRec.set_int 1 blk_a 0 9, LogRec.start 1, LogRec.set_int 1 blk_a 0 7]

/-- Claim C2: because `StartRecord::tx_number()` returns `-1` instead of
the stored transaction number, the rollback scan's equality test
`rec.tx_number() == self.txnum` is false at the transaction's own Start
record (for any real transaction number ≥ 0), so the scan never stops
there: it continues past the Start record to the head of the log and
also undoes the older update record bearing the same transaction number,
contradicting the claim (and the method's own documentation, "iterating
through the log records until it finds the transaction's START
record"). -/
theorem c2_rollback_scans_past_start :
    (LogRec.start 1).tx_number = -1 ∧
    do_rollback_undone 1 rollback_scan_log =
      [LogRec.set_int 1 blk_a 0 9, LogRec.set_int 1 blk_a 0 7] := by
  refine ⟨rfl, by decide⟩

/-! ## Commit ordering (claim C3)

`RecoveryManager::commit` is modelled by the trace of log/file events it
performs, built from the event traces of the functions it calls. -/

/-- A buffer frame (`src/buffer/buffer.rs`): the resident block, the pin
count, the modifying transaction (−1 when clean) and the LSN of the most
recent update log record covering the modification. -/
structure Frame where
  block : Option BlockId
  pins : Nat
  txnum : Int
  lsn : Int
deriving DecidableEq

/-- An observable log/file event. -/
inductive Event where
  | log_flush (lsn : Int)
  | file_write (block : BlockId)
  | log_append (rec : LogRec)
deriving DecidableEq

/-- `Buffer::flush` (`src/buffer/buffer.rs`), event part: when the frame
is dirty (txnum ≥ 0), first flush the log up to the frame's lsn (the WAL
rule), then, if a block is assigned, write the page through the file
manager; a clean frame does nothing. -/
def buffer_flush_events (f : Frame) : List Event :=
  if 0 ≤ f.txnum then
    Event.log_flush f.lsn ::
      (match f.block with
       | some b => [Event.file_write b]
       | none => [])
  else []

/-- `Buffer::flush`, state part: a dirty frame is marked clean
(txnum ← −1); pins, block and lsn are unchanged. -/
def buffer_flush (f : Frame) : Frame :=
  if 0 ≤ f.txnum then { f with txnum := -1 } else f

/-- `BufferManager::flush_all(txnum)` (`src/buffer/manager.rs`), event
part: flush every frame whose txnum equals the argument, in pool order. -/
def flush_all_events (txnum : Int) (pool : List Frame) : List Event :=
  (pool.filter (fun f => decide (f.txnum = txnum))).flatMap buffer_flush_events

/-- `RecoveryManager::commit` (`src/tx/recovery/manager.rs`), as its event
trace: first `buffer_manager.flush_all(txnum)`, then append a Commit
record for this transaction to the log, then flush the log up to the LSN
returned by the append. -/
def commit_events (txnum : Int) (pool : List Frame) (commit_lsn : Int) :
    List Event :=
  flush_all_events txnum pool ++
    [Event.log_append (LogRec.commit txnum), Event.log_flush commit_lsn]

lemma log_append_not_mem_buffer_flush_events (f : Frame) (r : LogRec) :
    Event.log_append r ∉ buffer_flush_events f := by
  unfold buffer_flush_events
  by_cases h : 0 ≤ f.txnum <;> cases hb : f.block <;> simp [h, hb]

lemma log_append_not_mem_flush_all (txnum : Int) (pool : List Frame)
    (r : LogRec) : Event.log_append r ∉ flush_all_events txnum pool := by
  unfold flush_all_events
  intro hmem
  rw [List.mem_flatMap] at hmem
  obtain ⟨f, _, hf⟩ := hmem
  exact log_append_not_mem_buffer_flush_events f r hf

lemma log_append_decomp (r₀ : LogRec) (y : Event)
    (hy : ∀ r, y ≠ Event.log_append r) :
    ∀ (A l₁ l₂ : List Event) (r : LogRec),
      (∀ r', Event.log_append r' ∉ A) →
      A ++ [Event.log_append r₀, y] = l₁ ++ Event.log_append r :: l₂ →
      l₁ = A ∧ r = r₀ ∧ l₂ = [y] := by
  intro A
  induction A with
  | nil =>
    intro l₁ l₂ r _ h
    match l₁ with
    | [] =>
      simp at h
      exact ⟨rfl, h.1.symm, h.2.symm⟩
    | [a] =>
      simp at h
      exact absurd h.2.1 (hy r)
    | a :: b :: rest =>
      simp at h
  | cons a A ih =>
    intro l₁ l₂ r hA h
    match l₁ with
    | [] =>
      simp at h
      exact absurd (by simp [← h.1]) (hA r)
    | b :: l₁' =>
      simp at h
      obtain ⟨hba, htail⟩ := h
      have hA' : ∀ r', Event.log_append r' ∉ A := by
        intro r' hr'
        exact hA r' (List.mem_cons_of_mem a hr')
      obtain ⟨h1, h2, h3⟩ := ih l₁' l₂ r hA' htail
      exact ⟨by rw [hba, h1], h2, h3⟩

/-- Claim C3: `commit()` performs, in order: the flush of every frame
whose txnum equals this transaction's, then the append of a Commit
record, then the log flush up to that record's LSN.  Every file write in
the trace belongs to a dirty frame of this transaction, and after the
(unique) log-append event no file write occurs: for any decomposition of
the trace around a log-append event, the appended record is this
transaction's Commit record and the remainder of the trace contains no
file write. -/
theorem c3_commit_order (txnum : Int) (pool : List Frame)
    (commit_lsn : Int) :
    commit_events txnum pool commit_lsn =
      flush_all_events txnum pool ++
        [Event.log_append (LogRec.commit txnum),
         Event.log_flush commit_lsn] ∧
    (∀ b, Event.file_write b ∈ commit_events txnum pool commit_lsn →
      ∃ f ∈ pool, f.txnum = txnum ∧ 0 ≤ f.txnum ∧ f.block = some b) ∧
    (∀ l₁ l₂ r, commit_events txnum pool commit_lsn =
        l₁ ++ Event.log_append r :: l₂ →
      r = LogRec.commit txnum ∧ ∀ b, Event.file_write b ∉ l₂) := by
  refine ⟨rfl, ?_, ?_⟩
  · intro b hb
    unfold commit_events at hb
    rw [List.mem_append] at hb
    rcases hb with hb | hb
    · unfold flush_all_events at hb
      rw [List.mem_flatMap] at hb
      obtain ⟨f, hf, hbf⟩ := hb
      rw [List.mem_filter] at hf
      refine ⟨f, hf.1, by simpa using hf.2, ?_, ?_⟩
      · unfold buffer_flush_events at hbf
        by_cases h : 0 ≤ f.txnum
        · exact h
        · simp [h] at hbf
      · unfold buffer_flush_events at hbf
        by_cases h : 0 ≤ f.txnum <;> cases hfb : f.block <;>
          simp [h, hfb] at hbf
        exact congrArg some hbf.symm
    · simp at hb
  · intro l₁ l₂ r h
    unfold commit_events at h
    obtain ⟨_, h2, h3⟩ :=
      log_append_decomp (LogRec.commit txnum) (Event.log_flush commit_lsn)
        (fun r' => by simp) (flush_all_events txnum pool) l₁ l₂ r
        (fun r' => log_append_not_mem_flush_all txnum pool r') h
    subst h3
    exact ⟨h2, fun b => by simp⟩

/-- Witness for `c3_commit_order` on a concrete pool: one dirty frame of
transaction 5 holding `blk_a`; its file write happens before the Commit
append, and the trace after the append contains no file write. -/
theorem c3_commit_order_witness :
    commit_events 5 [⟨some blk_a, 1, 5, 3⟩] 7 =
      [Event.log_flush 3, Event.file_write blk_a,
       Event.log_append (LogRec.commit 5), Event.log_flush 7] ∧
    Event.file_write blk_a ∉ [Event.log_flush 7] := by
  constructor
  · decide
  · exact ((c3_commit_order 5 [⟨some blk_a, 1, 5, 3⟩] 7).2.2
      [Event.log_flush 3, Event.file_write blk_a] [Event.log_flush 7]
      (LogRec.commit 5) (by decide)).2 blk_a

/-! ## Buffer frames and the buffer pool (`src/buffer/buffer.rs`,
`src/buffer/manager.rs`) -/

/-- `Buffer::set_modified` (`src/buffer/buffer.rs`): always record the
given txnum as the modifying transaction; update the stored lsn only when
the given lsn is non-negative. -/
def set_modified (f : Frame) (txnum : Int) (lsn : Int) : Frame :=
  { f with txnum := txnum, lsn := if 0 ≤ lsn then lsn else f.lsn }

/-- `Buffer::new`: an empty, clean, unpinned frame. -/
def new_frame : Frame := ⟨none, 0, -1, -1⟩

/-- The `BufferPoolState` of `src/buffer/manager.rs`: the frames and the
count of available (unpinned) frames. -/
structure PoolState where
  pool : List Frame
  num_available : Nat
deriving DecidableEq

/-- `BufferManager::new(_, _, num_buffers)`. -/
def initial_pool (n : Nat) : PoolState := ⟨List.replicate n new_frame, n⟩

/-- `iter().enumerate().find(p)`: index of the first element satisfying
`p`, as used by `find_existing_buffer` and `find_unpinned_buffer`. -/
def find_index (p : Frame → Bool) : List Frame → Option Nat
  | [] => none
  | f :: rest => if p f then some 0 else (find_index p rest).map (· + 1)

/-- `BufferManager::find_existing_buffer`: first frame holding the block. -/
def find_existing_buffer (pool : List Frame) (b : BlockId) : Option Nat :=
  find_index (fun f => decide (f.block = some b)) pool

/-- `BufferManager::find_unpinned_buffer`: first frame with pin count 0. -/
def find_unpinned_buffer (pool : List Frame) : Option Nat :=
  find_index (fun f => decide (f.pins = 0)) pool

/-- `Buffer::assign_to_block`: flush if dirty, read the new block's bytes
(the byte contents are not part of this state), set the block, reset the
pin count to zero. -/
def assign_to_block (f : Frame) (b : BlockId) : Frame :=
  { buffer_flush f with block := some b, pins := 0 }

/-- `BufferManager::try_to_pin`: reuse the frame already holding the block
(decrementing `num_available` when that frame was unpinned), else reassign
the first unpinned frame (decrement `num_available`, pin); `none` when no
frame holds the block and none is unpinned (the caller `pin` then waits
and, single-threaded, fails with "buffer abort").  Returns the chosen
frame index with the new state.  `num_available` is a `usize`; in every
reachable state the decrements below apply to a strictly positive value
(see the C9 theorem), so `Nat` subtraction is exact.  The inner
`pool[idx]?` lookups cannot be `none`: `find_index` returns in-range
indices. -/
def try_to_pin (st : PoolState) (b : BlockId) : Option (Nat × PoolState) :=
  match find_existing_buffer st.pool b with
  | some idx =>
    match st.pool[idx]? with
    | none => none
    | some f =>
      some (idx,
        ⟨st.pool.set idx { f with pins := f.pins + 1 },
         if f.pins = 0 then st.num_available - 1 else st.num_available⟩)
  | none =>
    match find_unpinned_buffer st.pool with
    | none => none
    | some idx =>
      match st.pool[idx]? with
      | none => none
      | some f =>
        some (idx,
          ⟨st.pool.set idx { assign_to_block f b with pins := 1 },
           st.num_available - 1⟩)

/-- `BufferManager::unpin(idx)`: decrement the frame's pin count (`none`
models the panic on an out-of-range index and the `u32` underflow panic
when the count is already zero); when the count reaches zero, increment
`num_available` and notify one waiter. -/
def bm_unpin (st : PoolState) (idx : Nat) : Option PoolState :=
  match st.pool[idx]? with
  | none => none
  | some f =>
    if f.pins = 0 then none
    else some
      ⟨st.pool.set idx { f with pins := f.pins - 1 },
       if f.pins - 1 = 0 then st.num_available + 1 else st.num_available⟩

/-- `BufferManager::flush_all(txnum)`, state part: flush every frame whose
txnum equals the argument; pin counts and `num_available` untouched. -/
def bm_flush_all (st : PoolState) (txnum : Int) : PoolState :=
  ⟨st.pool.map (fun f => if f.txnum = txnum then buffer_flush f else f),
   st.num_available⟩

/-- The buffer-manager states reachable from a freshly constructed pool by
any sequence of pin, unpin and flush_all operations. -/
inductive ReachablePool : PoolState → Prop where
  | init (n : Nat) : ReachablePool (initial_pool n)
  | pin {st : PoolState} {b : BlockId} {idx : Nat} {st' : PoolState} :
      ReachablePool st → try_to_pin st b = some (idx, st') →
      ReachablePool st'
  | unpin {st : PoolState} {idx : Nat} {st' : PoolState} :
      ReachablePool st → bm_unpin st idx = some st' → ReachablePool st'
  | flush_all {st : PoolState} (txnum : Int) :
      ReachablePool st → ReachablePool (bm_flush_all st txnum)

/-- The number of frames whose pin count is zero: the value `available()`
is supposed to report.  The claim also counts pinned frames
(`count_pinned`). -/
def count_unpinned : List Frame → Nat
  | [] => 0
  | f :: rest => (if f.pins = 0 then 1 else 0) + count_unpinned rest

/-- The number of frames whose pin count is positive. -/
def count_pinned : List Frame → Nat
  | [] => 0
  | f :: rest => (if 0 < f.pins then 1 else 0) + count_pinned rest

lemma find_index_spec (p : Frame → Bool) (l : List Frame) (i : Nat)
    (h : find_index p l = some i) :
    ∃ f, l[i]? = some f ∧ p f = true := by
  induction l generalizing i with
  | nil => simp [find_index] at h
  | cons a l ih =>
    by_cases hpa : p a
    · simp [find_index, hpa] at h
      exact ⟨a, by simp [← h], hpa⟩
    · simp [find_index, hpa] at h
      match hfi : find_index p l with
      | none => rw [hfi] at h; simp at h
      | some j =>
        rw [hfi] at h
        simp at h
        obtain ⟨f, hf, hpf⟩ := ih j hfi
        refine ⟨f, ?_, hpf⟩
        rw [← h]
        simpa using hf

lemma count_unpinned_set (l : List Frame) (i : Nat) (x f : Frame)
    (hf : l[i]? = some f) :
    count_unpinned (l.set i x) + (if f.pins = 0 then 1 else 0) =
      count_unpinned l + (if x.pins = 0 then 1 else 0) := by
  induction l generalizing i with
  | nil => simp at hf
  | cons a l ih =>
    cases i with
    | zero =>
      simp only [List.getElem?_cons_zero, Option.some_inj] at hf
      simp only [List.set_cons_zero, count_unpinned]
      rw [hf]
      omega
    | succ n =>
      simp only [List.getElem?_cons_succ] at hf
      have hrec := ih n hf
      simp only [List.set_cons_succ, count_unpinned]
      omega

lemma count_pinned_add_count_unpinned (l : List Frame) :
    count_pinned l + count_unpinned l = l.length := by
  induction l with
  | nil => rfl
  | cons a l ih =>
    simp only [count_pinned, count_unpinned, List.length_cons]
    by_cases hp : a.pins = 0
    · have h0 : ¬ 0 < a.pins := by omega
      rw [if_pos hp, if_neg h0]
      omega
    · have h0 : 0 < a.pins := by omega
      rw [if_neg hp, if_pos h0]
      omega

lemma count_unpinned_initial (n : Nat) :
    count_unpinned (initial_pool n).pool = n := by
  induction n with
  | zero => rfl
  | succ m ih =>
    simp only [initial_pool, List.replicate_succ, count_unpinned] at ih ⊢
    have h0 : new_frame.pins = 0 := rfl
    rw [if_pos h0]
    omega

lemma buffer_flush_pins_eq (f : Frame) :
    (buffer_flush f).pins = f.pins := by
  unfold buffer_flush
  by_cases h : 0 ≤ f.txnum <;> simp [h]

lemma count_unpinned_flush_all (l : List Frame) (t : Int) :
    count_unpinned
        (l.map (fun f => if f.txnum = t then buffer_flush f else f)) =
      count_unpinned l := by
  induction l with
  | nil => rfl
  | cons a l ih =>
    simp only [List.map_cons, count_unpinned]
    have hpins : (if a.txnum = t then buffer_flush a else a).pins = a.pins := by
      by_cases ht : a.txnum = t <;> simp [ht, buffer_flush_pins_eq]
    rw [hpins]
    omega

/-- Claim C9: in every state reachable from a freshly constructed pool by
pin, unpin and flush_all, `num_available` (the value `available()`
returns) equals the number of frames whose pin count is zero;
equivalently, the number of pinned frames plus `num_available` equals the
pool size. -/
theorem c9_available_counts_unpinned (st : PoolState)
    (h : ReachablePool st) :
    st.num_available = count_unpinned st.pool ∧
    count_pinned st.pool + st.num_available = st.pool.length := by
  have main : st.num_available = count_unpinned st.pool := by
    induction h with
    | init n => exact (count_unpinned_initial n).symm
    | pin hr hstep ih =>
      rename_i st b idx st'
      unfold try_to_pin at hstep
      split at hstep
      · rename_i i hfe
        split at hstep
        · exact Option.noConfusion hstep
        · rename_i f hf
          simp only [Option.some_inj, Prod.mk.injEq] at hstep
          obtain ⟨_, hst'⟩ := hstep
          subst hst'
          have hcount := count_unpinned_set st.pool i
            { f with pins := f.pins + 1 } f hf
          have hx : ({ f with pins := f.pins + 1 } : Frame).pins =
              f.pins + 1 := rfl
          rw [hx, if_neg (by omega : ¬ f.pins + 1 = 0)] at hcount
          show (if f.pins = 0 then st.num_available - 1
              else st.num_available) =
            count_unpinned (st.pool.set i { f with pins := f.pins + 1 })
          by_cases hp : f.pins = 0
          · rw [if_pos hp]
            rw [if_pos hp] at hcount
            omega
          · rw [if_neg hp]
            rw [if_neg hp] at hcount
            omega
      · rename_i hfe
        split at hstep
        · exact Option.noConfusion hstep
        · rename_i i hfu
          split at hstep
          · exact Option.noConfusion hstep
          · rename_i f hf
            simp only [Option.some_inj, Prod.mk.injEq] at hstep
            obtain ⟨_, hst'⟩ := hstep
            subst hst'
            obtain ⟨f', hf', hpf⟩ := find_index_spec _ _ _ hfu
            rw [hf] at hf'
            have hff : f' = f := Option.some_inj.mp hf'.symm
            rw [hff] at hpf
            simp only [decide_eq_true_eq] at hpf
            have hcount := count_unpinned_set st.pool i
              { assign_to_block f b with pins := 1 } f hf
            have hx : ({ assign_to_block f b with pins := 1 } : Frame).pins
                = 1 := rfl
            rw [hx, if_neg (by omega : ¬ (1 : Nat) = 0),
              if_pos hpf] at hcount
            show st.num_available - 1 =
              count_unpinned
                (st.pool.set i { assign_to_block f b with pins := 1 })
            omega
    | unpin hr hstep ih =>
      rename_i st idx st'
      unfold bm_unpin at hstep
      split at hstep
      · exact Option.noConfusion hstep
      · rename_i f hf
        split at hstep
        · exact Option.noConfusion hstep
        · rename_i hp
          simp only [Option.some_inj] at hstep
          subst hstep
          have hcount := count_unpinned_set st.pool idx
            { f with pins := f.pins - 1 } f hf
          have hx : ({ f with pins := f.pins - 1 } : Frame).pins =
              f.pins - 1 := rfl
          rw [hx, if_neg hp] at hcount
          show (if f.pins - 1 = 0 then st.num_available + 1
              else st.num_available) =
            count_unpinned (st.pool.set idx { f with pins := f.pins - 1 })
          by_cases hp1 : f.pins - 1 = 0
          · rw [if_pos hp1]
            rw [if_pos hp1] at hcount
            omega
          · rw [if_neg hp1]
            rw [if_neg hp1] at hcount
            omega
    | flush_all t hr ih =>
      rename_i st
      show st.num_available =
        count_unpinned (st.pool.map
          (fun f => if f.txnum = t then buffer_flush f else f))
      rw [count_unpinned_flush_all]
      exact ih
  refine ⟨main, ?_⟩
  rw [main]
  exact count_pinned_add_count_unpinned st.pool

/-- Witness for `c9_available_counts_unpinned`: the state reached from a
fresh two-frame pool by pinning `blk_a` once. -/
theorem c9_available_counts_unpinned_witness :
    (⟨[⟨some blk_a, 1, -1, -1⟩, new_frame], 1⟩ : PoolState).num_available =
      count_unpinned [⟨some blk_a, 1, -1, -1⟩, new_frame] := by
  have hstep : try_to_pin (initial_pool 2) blk_a =
      some (0, ⟨[⟨some blk_a, 1, -1, -1⟩, new_frame], 1⟩) := by decide
  exact (c9_available_counts_unpinned _
    (ReachablePool.pin (ReachablePool.init 2) hstep)).1

/-! ## Claim C10 -/

/-- Claim C10: `set_modified(txnum, lsn)` always records the given txnum
as the frame's modifying transaction but updates the stored LSN only when
`lsn ≥ 0`; with a negative lsn (an unlogged write) the previously stored
LSN is kept, so a later flush of the (now dirty) frame still flushes the
log up to the LSN of the last logged update. -/
theorem c10_set_modified_keeps_lsn (f : Frame) (txnum lsn : Int) :
    (set_modified f txnum lsn).txnum = txnum ∧
    (set_modified f txnum lsn).lsn = (if 0 ≤ lsn then lsn else f.lsn) ∧
    (lsn < 0 → 0 ≤ txnum →
      buffer_flush_events (set_modified f txnum lsn) =
        Event.log_flush f.lsn ::
          (match f.block with
           | some b => [Event.file_write b]
           | none => [])) := by
  refine ⟨rfl, rfl, ?_⟩
  intro h1 h2
  have h1' : ¬ 0 ≤ lsn := by omega
  simp [buffer_flush_events, set_modified, h1', h2]

/-- Witness for `c10_set_modified_keeps_lsn`: a clean frame holding
`blk_a` with stored LSN 5, modified by transaction 2 with lsn −1; its
flush still flushes the log up to LSN 5. -/
theorem c10_set_modified_keeps_lsn_witness :
    buffer_flush_events (set_modified ⟨some blk_a, 1, -1, 5⟩ 2 (-1)) =
      [Event.log_flush 5, Event.file_write blk_a] :=
  (c10_set_modified_keeps_lsn ⟨some blk_a, 1, -1, 5⟩ 2 (-1)).2.2
    (by omega) (by omega)

/-! ## BufferList (`src/tx/bufferlist.rs`) — claim C4 -/

/-- The per-transaction `BufferList`: the `HashMap<BlockId, usize>` from
pinned block to frame index (as an association list with unique keys) and
the ordered `Vec<BlockId>` of pinning events. -/
structure TxBuffers where
  buffers : List (BlockId × Nat)
  pins : List BlockId
deriving DecidableEq

/-- `HashMap::get` on the block-to-frame map. -/
def lookup_buffer : List (BlockId × Nat) → BlockId → Option Nat
  | [], _ => none
  | (k, v) :: rest, b => if k = b then some v else lookup_buffer rest b

/-- `HashMap::insert` on the block-to-frame map. -/
def insert_buffer : List (BlockId × Nat) → BlockId → Nat → List (BlockId × Nat)
  | [], b, i => [(b, i)]
  | (k, v) :: rest, b, i =>
    if k = b then (b, i) :: rest else (k, v) :: insert_buffer rest b i

/-- `HashMap::remove` on the block-to-frame map. -/
def remove_buffer : List (BlockId × Nat) → BlockId → List (BlockId × Nat)
  | [], _ => []
  | (k, v) :: rest, b => if k = b then rest else (k, v) :: remove_buffer rest b

/-- `BufferList::pin`: pin through the buffer manager, then record the
returned frame index for the block and push the pinning event. -/
def bl_pin (bl : TxBuffers) (st : PoolState) (b : BlockId) :
    Option (TxBuffers × PoolState) :=
  match try_to_pin st b with
  | none => none
  | some (idx, st') =>
    some (⟨insert_buffer bl.buffers b idx, bl.pins ++ [b]⟩, st')

/-- `BufferList::unpin`: when the block has a recorded frame index, unpin
that frame once in the buffer manager; then `pins.retain(|e| e != block)`
removes every pinning event equal to the block, and — the retained list
never containing the block afterwards — the `!pins.contains(block)` check
always passes and the block's mapping is dropped. -/
def bl_unpin (bl : TxBuffers) (st : PoolState) (b : BlockId) :
    Option (TxBuffers × PoolState) :=
  match lookup_buffer bl.buffers b with
  | none => some (bl, st)
  | some idx =>
    match bm_unpin st idx with
    | none => none
    | some st' =>
      some (⟨if b ∈ bl.pins.filter (fun e => decide (e ≠ b)) then bl.buffers
             else remove_buffer bl.buffers b,
             bl.pins.filter (fun e => decide (e ≠ b))⟩, st')

/-- `BufferList::unpin_all`, inner loop: for each recorded pinning event,
unpin the mapped frame once in the buffer manager (the map is not
modified while the loop runs). -/
def bl_unpin_all_loop (buffers : List (BlockId × Nat)) (st : PoolState) :
    List BlockId → Option PoolState
  | [] => some st
  | b :: rest =>
    match lookup_buffer buffers b with
    | none => bl_unpin_all_loop buffers st rest
    | some idx =>
      match bm_unpin st idx with
      | none => none
      | some st' => bl_unpin_all_loop buffers st' rest

/-- `BufferList::unpin_all`: run the loop over the pinning events, then
clear both the map and the event list. -/
def bl_unpin_all (bl : TxBuffers) (st : PoolState) :
    Option (TxBuffers × PoolState) :=
  (bl_unpin_all_loop bl.buffers st bl.pins).map (fun st' => (⟨[], []⟩, st'))

/-- Claim C4's scenario on a one-frame pool: the transaction pins `blk_a`
twice. -/
def c4_after_two_pins : Option (TxBuffers × PoolState) :=
  (bl_pin ⟨[], []⟩ (initial_pool 1) blk_a).bind
    (fun p => bl_pin p.1 p.2 blk_a)

/-- ... then calls `unpin(blk_a)` once. -/
def c4_after_one_unpin : Option (TxBuffers × PoolState) :=
  c4_after_two_pins.bind (fun p => bl_unpin p.1 p.2 blk_a)

/-- ... and finally `unpin_all()` (as `commit`/`rollback` do). -/
def c4_after_unpin_all : Option (TxBuffers × PoolState) :=
  c4_after_one_unpin.bind (fun p => bl_unpin_all p.1 p.2)

/-- Claim C4: the claim says that after a block is pinned n ≥ 2 times, a
single `unpin(block)` releases exactly the most recent pinning event and
leaves n − 1 pins recorded so later unpins or `unpin_all` can release the
remainder.  In the code, `unpin` releases one manager-side pin but its
`retain` erases ALL recorded pinning events for the block and drops the
block's mapping: after two pins and one unpin the transaction records no
pin at all ([], not one event), and the remaining manager-side pin is
unreachable — after `unpin_all` the frame still has pin count 1 and the
pool reports 0 available frames, a permanently leaked pin. -/
theorem c4_unpin_drops_all_recorded_pins :
    (c4_after_two_pins.map
      (fun p => (p.1.pins, p.2.pool.map Frame.pins, p.2.num_available))) =
      some ([blk_a, blk_a], [2], 0) ∧
    (c4_after_one_unpin.map
      (fun p => (p.1.pins, p.1.buffers, p.2.pool.map Frame.pins))) =
      some ([], [], [1]) ∧
    (c4_after_unpin_all.map
      (fun p => (p.2.pool.map Frame.pins, p.2.num_available))) =
      some ([1], 0) := by
  refine ⟨rfl, rfl, rfl⟩

end SimpleDB
